import Mathlib

/-!
Verification of the python-daachorse binding (`src/lib.rs`) against its
natural-language specification.

The repository under verification is a thin binding over the external
`daachorse` Aho-Corasick engine.  The binding code (`src/lib.rs`) is embedded
directly: the position-translation map (`pos_map`), the `match_kind` dispatch,
the STANDARD-only guards of the overlapping family, the error messages, and the
value-to-pattern-text lookup of the `*_as_strings` variants.  The engine itself
(trie construction, failure links, merged and direct output sets, and the five
match iterators) is not part of this repository's sources; those parts are
modelled from the specification's description (sections 4.1-4.6) and each such
definition is marked `Modelled from the spec`.

Haystacks and patterns are lists of `Char` (Unicode scalar values), matching
the Rust `str`/`char` data; raw storage offsets are UTF-8 byte offsets computed
with `Char.utf8Size`, exactly as `str::len` / `char_indices` produce them.
-/

namespace Daachorse

/-- The match-kind selector of the engine: STANDARD, LEFTMOST_LONGEST or
LEFTMOST_FIRST (spec section 6). -/
inductive MatchKind where
  | Standard
  | LeftmostLongest
  | LeftmostFirst
deriving DecidableEq, Repr

/-- Modelled from the spec: construction errors (section 7): the pattern set is
empty, a pattern is the empty string, or the state space overflows during
compaction.  The overflow case cannot arise in this model, which does not
bound the state-index range. -/
inductive ConstructionError where
  | emptyPatternSet
  | emptyPattern
deriving DecidableEq, Repr

/-- The automaton object of `src/lib.rs`: the pattern set (kept for the
`*_as_strings` lookups), and the match kind selected at construction. -/
structure Automaton where
  pats : List (List Char)
  matchKind : MatchKind
deriving DecidableEq, Repr

/-- Modelled from the spec: construction (section 4.1) fails with a
`ConstructionError` if the pattern set is empty or if any pattern is the empty
string; otherwise the automaton is created. -/
def Automaton.new (pats : List (List Char)) (matchKind : MatchKind) :
    Except ConstructionError Automaton :=
  if pats = [] then .error .emptyPatternSet
  else if pats.any (fun p => p.isEmpty) then .error .emptyPattern
  else .ok ⟨pats, matchKind⟩

/-- Total UTF-8 byte length of a character sequence (Rust `str::len`). -/
def utf8Len : List Char → Nat
  | [] => 0
  | c :: cs => c.utf8Size + utf8Len cs

/-- Byte offset at which codepoint number `i` of `h` begins
(Rust `char_indices` offsets). -/
def byteOff (h : List Char) (i : Nat) : Nat :=
  utf8Len (h.take i)

/-- The loop of `find` (src/lib.rs lines 84-88, identical in the overlapping
variants): walk `char_indices`, writing the codepoint index `i` into the map
slot of its byte offset `j`, and remember the last codepoint index in
`len_in_chars`.  Returns the updated map and the final `len_in_chars`. -/
def fillPosMap : List Char → Nat → Nat → List Nat → Nat → List Nat × Nat
  | [], _, _, m, lic => (m, lic)
  | c :: cs, i, j, m, _ => fillPosMap cs (i + 1) (j + c.utf8Size) (m.set j i) i

/-- The `pos_map` built by each search (src/lib.rs lines 78-89): a vector of
`haystack.len() + 1` zeros, filled by `fillPosMap`, whose last slot is set to
`len_in_chars + 1`. -/
def buildPosMap (h : List Char) : List Nat :=
  let r := fillPosMap h 0 0 (List.replicate (utf8Len h + 1) 0) 0
  r.1.set (utf8Len h) (r.2 + 1)

/-- Boolean prefix test on character lists. -/
def isPrefixList : List Char → List Char → Bool
  | [], _ => true
  | _ :: _, [] => false
  | c :: cs, d :: ds => c = d && isPrefixList cs ds

/-- Index of the first pattern equal to `s`, if any (pattern ids are assigned
in input order, spec section 3). -/
def findPatIdx : List (List Char) → List Char → Option Nat
  | [], _ => none
  | p :: ps, s => if p = s then some 0 else (findPatIdx ps s).map (· + 1)

/-- Modelled from the spec: the merged (suffix-inclusive) output set of the
state reached after scanning `seg` from the root (sections 4.2 and 4.5).  The
state is the longest suffix of `seg` that is a trie path, and its merged
outputs are the pattern ids of all patterns that are (nonempty) suffixes of
`seg`, ordered direct-first, that is by decreasing pattern length. -/
def outputsOf (pats : List (List Char)) (seg : List Char) : List Nat :=
  (List.range seg.length).filterMap (fun k => findPatIdx pats (seg.drop k))

/-- Modelled from the spec: the state reached after scanning `seg`: the longest
suffix of `seg` that is a prefix of some pattern (a trie path); the root (the
empty path) if none. -/
def stateOf (pats : List (List Char)) : List Char → List Char
  | [] => []
  | c :: rest =>
    if pats.any (fun p => isPrefixList (c :: rest) p) then c :: rest
    else stateOf pats rest

/-- First end position `e` in `es` at which the merged output set of the
segment `rest.take e` is non-empty, together with the head (best, longest)
output id there. -/
def firstOutput (pats : List (List Char)) (rest : List Char) :
    List Nat → Option (Nat × Nat)
  | [] => none
  | e :: es =>
    match outputsOf pats (rest.take e) with
    | [] => firstOutput pats rest es
    | id :: _ => some (e, id)

/-- Candidate end positions `1, 2, ..., rest.length` for a scan of `rest`. -/
def stepEnds (rest : List Char) : List Nat :=
  (List.range rest.length).map (fun k => k + 1)

/-- Modelled from the spec: the standard (non-overlapping) iterator
(section 4.5): scan left to right; at the first position where the current
state's merged outputs are non-empty, report the single best match (the
longest match ending there) and resume scanning from that match's end.
`b` is the codepoint offset of `rest` inside the full haystack; the fuel
argument bounds the recursion and is initialised to the haystack length,
which suffices since every step consumes at least one character. -/
def stdScan (pats : List (List Char)) : Nat → List Char → Nat →
    List (Nat × Nat × Nat)
  | 0, _, _ => []
  | fuel + 1, rest, b =>
    match firstOutput pats rest (stepEnds rest) with
    | none => []
    | some (e, id) =>
      ((b + e) - (pats.getD id []).length, b + e, id) ::
        stdScan pats fuel (rest.drop e) (b + e)

/-- Modelled from the spec: the match sequence of the standard iterator over a
haystack, in codepoint units. -/
def findStdModel (pats : List (List Char)) (h : List Char) :
    List (Nat × Nat × Nat) :=
  stdScan pats h.length h 0

/-- Modelled from the spec: the `(id, length)` candidates of patterns that are
nonempty prefixes of `rest`, in pattern-id order; `i` is the id of the first
pattern of the list. -/
def candidatesFrom : List (List Char) → Nat → List Char → List (Nat × Nat)
  | [], _, _ => []
  | p :: ps, i, rest =>
    (if !p.isEmpty && isPrefixList p rest then [(i, p.length)] else []) ++
      candidatesFrom ps (i + 1) rest

/-- The candidate of greatest length, earliest id on ties. -/
def pickLongest : List (Nat × Nat) → Option (Nat × Nat)
  | [] => none
  | c :: cs =>
    match pickLongest cs with
    | none => some c
    | some d => if d.2 > c.2 then some d else some c

/-- Modelled from the spec: the tie-breaking rule among matches starting at
the leftmost unconsumed position (section 4.5): leftmost-longest picks the
greatest length, leftmost-first picks the smallest insertion-order id. -/
def selectLeftmost (kind : MatchKind) (cands : List (Nat × Nat)) :
    Option (Nat × Nat) :=
  match kind with
  | .LeftmostFirst => cands.head?
  | _ => pickLongest cands

/-- First start position `s` in `ss` at which some pattern occurs in `rest`,
with the selected `(id, length)` there. -/
def firstLeftmost (pats : List (List Char)) (kind : MatchKind)
    (rest : List Char) : List Nat → Option (Nat × Nat × Nat)
  | [] => none
  | s :: ss =>
    match selectLeftmost kind (candidatesFrom pats 0 (rest.drop s)) with
    | none => firstLeftmost pats kind rest ss
    | some c => some (s, c.1, c.2)

/-- Modelled from the spec: the leftmost iterators (section 4.5): report the
selected match at the leftmost start position with any match, then resume
scanning immediately after the matched end. -/
def leftmostScan (pats : List (List Char)) (kind : MatchKind) :
    Nat → List Char → Nat → List (Nat × Nat × Nat)
  | 0, _, _ => []
  | fuel + 1, rest, b =>
    match firstLeftmost pats kind rest (List.range rest.length) with
    | none => []
    | some (s, id, len) =>
      (b + s, b + s + len, id) ::
        leftmostScan pats kind fuel (rest.drop (s + len)) (b + s + len)

/-- Modelled from the spec: the match sequence of a leftmost iterator over a
haystack, in codepoint units. -/
def findLeftmostModel (pats : List (List Char)) (kind : MatchKind)
    (h : List Char) : List (Nat × Nat × Nat) :=
  leftmostScan pats kind h.length h 0

/-- Modelled from the spec: the overlapping iterator (section 4.5): at every
position report every merged output, without consuming. -/
def findOverlappingModel (pats : List (List Char)) (h : List Char) :
    List (Nat × Nat × Nat) :=
  ((List.range h.length).map (fun pos =>
    (outputsOf pats (h.take (pos + 1))).map (fun id =>
      ((pos + 1) - (pats.getD id []).length, pos + 1, id)))).flatten

/-- Modelled from the spec: the overlapping-no-suffix iterator (section 4.5):
at every position report only the direct (non-suffix-merged) output of the
current state, that is the pattern equal to the state string itself, if any. -/
def findOverlappingNoSuffixModel (pats : List (List Char)) (h : List Char) :
    List (Nat × Nat × Nat) :=
  (List.range h.length).filterMap (fun pos =>
    (findPatIdx pats (stateOf pats (h.take (pos + 1)))).map (fun id =>
      ((pos + 1) - (pats.getD id []).length, pos + 1, id)))

/-- Byte-offset form of a match list (the engine reports matches in storage
units, spec section 4.6). -/
def toByteMatches (h : List Char) (ms : List (Nat × Nat × Nat)) :
    List (Nat × Nat × Nat) :=
  ms.map (fun m => (byteOff h m.1, byteOff h m.2.1, m.2.2))

/-- The `pos_map` translation applied by every tuple-returning search in
`src/lib.rs`: each byte offset is replaced by the map entry at it. -/
def translateMatches (pm : List Nat) (ms : List (Nat × Nat × Nat)) :
    List (Nat × Nat × Nat) :=
  ms.map (fun m => (pm.getD m.1 0, pm.getD m.2.1 0, m.2.2))

/-- `Automaton::find` (src/lib.rs lines 77-113): build `pos_map`, run the
iterator matching the stored `match_kind`, and translate offsets. -/
def Automaton.find (a : Automaton) (h : List Char) : List (Nat × Nat × Nat) :=
  let pm := buildPosMap h
  match a.matchKind with
  | .Standard => translateMatches pm (toByteMatches h (findStdModel a.pats h))
  | k => translateMatches pm (toByteMatches h (findLeftmostModel a.pats k h))

/-- `Automaton::find_as_strings` (src/lib.rs lines 142-157): collect the
matched values from the iterator matching the stored `match_kind`, then map
each value to the original pattern text with that id. -/
def Automaton.find_as_strings (a : Automaton) (h : List Char) :
    List (List Char) :=
  let values : List Nat :=
    match a.matchKind with
    | .Standard => (findStdModel a.pats h).map (fun m => m.2.2)
    | k => (findLeftmostModel a.pats k h).map (fun m => m.2.2)
  values.map (fun i => a.pats.getD i [])

/-- `Automaton::find_overlapping` (src/lib.rs lines 173-203): reject a
non-STANDARD automaton with the `InvalidConfiguration` message, else report
the overlapping matches translated through `pos_map`. -/
def Automaton.find_overlapping (a : Automaton) (h : List Char) :
    Except String (List (Nat × Nat × Nat)) :=
  if a.matchKind ≠ .Standard then .error "match_kind must be STANDARD"
  else .ok (translateMatches (buildPosMap h)
    (toByteMatches h (findOverlappingModel a.pats h)))

/-- `Automaton::find_overlapping_as_strings` (src/lib.rs lines 219-237):
same guard; collect values, then look up the original pattern texts. -/
def Automaton.find_overlapping_as_strings (a : Automaton) (h : List Char) :
    Except String (List (List Char)) :=
  if a.matchKind ≠ .Standard then .error "match_kind must be STANDARD"
  else .ok (((findOverlappingModel a.pats h).map (fun m => m.2.2)).map
    (fun i => a.pats.getD i []))

/-- `Automaton::find_overlapping_no_suffix` (src/lib.rs lines 259-289):
same guard; report the direct-output-only matches translated through
`pos_map`. -/
def Automaton.find_overlapping_no_suffix (a : Automaton) (h : List Char) :
    Except String (List (Nat × Nat × Nat)) :=
  if a.matchKind ≠ .Standard then .error "match_kind must be STANDARD"
  else .ok (translateMatches (buildPosMap h)
    (toByteMatches h (findOverlappingNoSuffixModel a.pats h)))

/-- `Automaton::find_overlapping_no_suffix_as_strings` (src/lib.rs lines
311-329): same guard; collect values, then look up the pattern texts. -/
def Automaton.find_overlapping_no_suffix_as_strings (a : Automaton)
    (h : List Char) : Except String (List (List Char)) :=
  if a.matchKind ≠ .Standard then .error "match_kind must be STANDARD"
  else .ok (((findOverlappingNoSuffixModel a.pats h).map (fun m => m.2.2)).map
    (fun i => a.pats.getD i []))

/-! ### Basic facts about the modelled engine -/

theorem isPrefixList_length : ∀ {p l : List Char}, isPrefixList p l = true →
    p.length ≤ l.length
  | [], _, _ => Nat.zero_le _
  | _ :: _, [], h => by simp [isPrefixList] at h
  | c :: cs, d :: ds, h => by
    simp only [isPrefixList, Bool.and_eq_true] at h
    simpa using Nat.succ_le_succ (isPrefixList_length h.2)

theorem findPatIdx_some : ∀ {pats : List (List Char)} {s : List Char} {i : Nat},
    findPatIdx pats s = some i → i < pats.length ∧ pats.getD i [] = s
  | [], s, i, h => by simp [findPatIdx] at h
  | p :: ps, s, i, h => by
    simp only [findPatIdx] at h
    by_cases hp : p = s
    · rw [if_pos hp] at h
      cases h
      exact ⟨Nat.succ_pos _, hp⟩
    · rw [if_neg hp] at h
      rcases Option.map_eq_some'.mp h with ⟨j, hj, hij⟩
      rcases findPatIdx_some hj with ⟨hlt, hget⟩
      subst hij
      exact ⟨Nat.succ_lt_succ hlt, hget⟩

theorem mem_outputsOf {pats : List (List Char)} {seg : List Char} {id : Nat}
    (h : id ∈ outputsOf pats seg) :
    id < pats.length ∧ (pats.getD id []).length ≤ seg.length := by
  simp only [outputsOf, List.mem_filterMap, List.mem_range] at h
  rcases h with ⟨k, _, hfind⟩
  rcases findPatIdx_some hfind with ⟨hlt, hget⟩
  refine ⟨hlt, ?_⟩
  rw [hget]
  simp

theorem mem_stepEnds {rest : List Char} {e : Nat} (h : e ∈ stepEnds rest) :
    1 ≤ e ∧ e ≤ rest.length := by
  simp only [stepEnds, List.mem_map, List.mem_range] at h
  rcases h with ⟨k, hk, rfl⟩
  omega

theorem firstOutput_some : ∀ {pats : List (List Char)} {rest : List Char}
    {es : List Nat} {e id : Nat}, firstOutput pats rest es = some (e, id) →
    e ∈ es ∧ id ∈ outputsOf pats (rest.take e)
  | _, _, [], _, _, h => by simp [firstOutput] at h
  | pats, rest, e0 :: es, e, id, h => by
    rw [firstOutput] at h
    cases hout : outputsOf pats (rest.take e0) with
    | nil =>
      rw [hout] at h
      rcases firstOutput_some h with ⟨hmem, hid⟩
      exact ⟨List.mem_cons_of_mem _ hmem, hid⟩
    | cons id0 tl =>
      rw [hout] at h
      cases h
      exact ⟨List.mem_cons_self _ _, hout ▸ List.mem_cons_self _ _⟩

theorem stdScan_bounds {pats : List (List Char)} : ∀ (fuel : Nat)
    (rest : List Char) (b : Nat) (m : Nat × Nat × Nat),
    m ∈ stdScan pats fuel rest b →
    b ≤ m.1 ∧ m.1 ≤ m.2.1 ∧ m.2.1 ≤ b + rest.length ∧ m.2.2 < pats.length
  | 0, rest, b, m, h => by simp [stdScan] at h
  | fuel + 1, rest, b, m, h => by
    rw [stdScan] at h
    cases hf : firstOutput pats rest (stepEnds rest) with
    | none => rw [hf] at h; simp at h
    | some p =>
      obtain ⟨e, id⟩ := p
      rw [hf] at h
      rcases firstOutput_some hf with ⟨hmem, hid⟩
      rcases mem_stepEnds hmem with ⟨he1, he2⟩
      rcases mem_outputsOf hid with ⟨hlt, hlen⟩
      rw [List.length_take] at hlen
      rcases List.mem_cons.mp h with rfl | htl
      · refine ⟨?_, ?_, ?_, hlt⟩ <;> simp only [] <;> omega
      · rcases stdScan_bounds fuel (rest.drop e) (b + e) m htl with ⟨h1, h2, h3, h4⟩
        rw [List.length_drop] at h3
        exact ⟨by omega, h2, by omega, h4⟩

theorem stdScan_chain {pats : List (List Char)} : ∀ (fuel : Nat)
    (rest : List Char) (b : Nat),
    List.Chain' (fun m1 m2 : Nat × Nat × Nat => m1.2.1 ≤ m2.1 ∧ m1.2.1 ≤ m2.2.1)
      (stdScan pats fuel rest b)
  | 0, rest, b => by simp [stdScan]
  | fuel + 1, rest, b => by
    rw [stdScan]
    cases hf : firstOutput pats rest (stepEnds rest) with
    | none => simp
    | some p =>
      obtain ⟨e, id⟩ := p
      refine List.chain'_cons'.mpr ⟨?_, stdScan_chain fuel (rest.drop e) (b + e)⟩
      intro y hy
      have hmem : y ∈ stdScan pats fuel (rest.drop e) (b + e) :=
        List.mem_of_mem_head? hy
      rcases stdScan_bounds fuel (rest.drop e) (b + e) y hmem with ⟨h1, h2, _, _⟩
      refine ⟨h1, ?_⟩
      show b + e ≤ y.2.1
      omega

theorem mem_candidatesFrom : ∀ {pats : List (List Char)} {i0 : Nat}
    {rest : List Char} {c : Nat × Nat}, c ∈ candidatesFrom pats i0 rest →
    i0 ≤ c.1 ∧ c.1 < i0 + pats.length ∧ 1 ≤ c.2 ∧ c.2 ≤ rest.length
  | [], i0, rest, c, h => by simp [candidatesFrom] at h
  | p :: ps, i0, rest, c, h => by
    rw [candidatesFrom] at h
    rcases List.mem_append.mp h with hl | hr
    · by_cases hcond : (!p.isEmpty && isPrefixList p rest) = true
      · rw [if_pos hcond] at hl
        rcases List.mem_singleton.mp hl with rfl
        simp only [Bool.and_eq_true, Bool.not_eq_true'] at hcond
        have hne : p ≠ [] := by
          intro hnil
          rw [hnil] at hcond
          simp [List.isEmpty] at hcond
        have hpos : 1 ≤ p.length := by
          cases p with
          | nil => exact absurd rfl hne
          | cons _ _ => simp
        exact ⟨Nat.le_refl _, by simp, hpos, isPrefixList_length hcond.2⟩
      · rw [if_neg hcond] at hl
        simp at hl
    · rcases mem_candidatesFrom hr with ⟨h1, h2, h3, h4⟩
      exact ⟨by omega, by simp only [List.length_cons]; omega, h3, h4⟩

theorem pickLongest_mem : ∀ {l : List (Nat × Nat)} {c : Nat × Nat},
    pickLongest l = some c → c ∈ l
  | [], c, h => by simp [pickLongest] at h
  | c0 :: cs, c, h => by
    rw [pickLongest] at h
    cases hp : pickLongest cs with
    | none => rw [hp] at h; cases h; exact List.mem_cons_self _ _
    | some d =>
      rw [hp] at h
      have h' : (if d.2 > c0.2 then some d else some c0) = some c := h
      by_cases hgt : d.2 > c0.2
      · rw [if_pos hgt] at h'
        cases h'
        exact List.mem_cons_of_mem _ (pickLongest_mem hp)
      · rw [if_neg hgt] at h'
        cases h'
        exact List.mem_cons_self _ _

theorem selectLeftmost_mem {kind : MatchKind} {l : List (Nat × Nat)}
    {c : Nat × Nat} (h : selectLeftmost kind l = some c) : c ∈ l := by
  cases kind with
  | LeftmostFirst => exact List.mem_of_mem_head? h
  | Standard => exact pickLongest_mem h
  | LeftmostLongest => exact pickLongest_mem h

theorem firstLeftmost_some : ∀ {pats : List (List Char)} {kind : MatchKind}
    {rest : List Char} {ss : List Nat} {s id len : Nat},
    firstLeftmost pats kind rest ss = some (s, id, len) →
    s ∈ ss ∧ (id, len) ∈ candidatesFrom pats 0 (rest.drop s)
  | _, _, _, [], _, _, _, h => by simp [firstLeftmost] at h
  | pats, kind, rest, s0 :: ss, s, id, len, h => by
    rw [firstLeftmost] at h
    cases hs : selectLeftmost kind (candidatesFrom pats 0 (rest.drop s0)) with
    | none =>
      rw [hs] at h
      rcases firstLeftmost_some h with ⟨hmem, hc⟩
      exact ⟨List.mem_cons_of_mem _ hmem, hc⟩
    | some c =>
      rw [hs] at h
      cases h
      exact ⟨List.mem_cons_self _ _, selectLeftmost_mem hs⟩

theorem leftmostScan_bounds {pats : List (List Char)} {kind : MatchKind} :
    ∀ (fuel : Nat) (rest : List Char) (b : Nat) (m : Nat × Nat × Nat),
    m ∈ leftmostScan pats kind fuel rest b →
    b ≤ m.1 ∧ m.1 ≤ m.2.1 ∧ m.2.1 ≤ b + rest.length ∧ m.2.2 < pats.length
  | 0, rest, b, m, h => by simp [leftmostScan] at h
  | fuel + 1, rest, b, m, h => by
    rw [leftmostScan] at h
    cases hf : firstLeftmost pats kind rest (List.range rest.length) with
    | none => rw [hf] at h; simp at h
    | some p =>
      obtain ⟨s, id, len⟩ := p
      rw [hf] at h
      rcases firstLeftmost_some hf with ⟨hmem, hc⟩
      have hs : s < rest.length := List.mem_range.mp hmem
      rcases mem_candidatesFrom hc with ⟨_, hid, hlen1, hlen2⟩
      rw [List.length_drop] at hlen2
      rcases List.mem_cons.mp h with rfl | htl
      · refine ⟨?_, ?_, ?_, ?_⟩ <;> simp only [] <;> omega
      · rcases leftmostScan_bounds fuel (rest.drop (s + len)) (b + s + len) m htl
          with ⟨h1, h2, h3, h4⟩
        rw [List.length_drop] at h3
        exact ⟨by omega, h2, by omega, h4⟩

theorem mem_findOverlappingModel {pats : List (List Char)} {h : List Char}
    {m : Nat × Nat × Nat} (hm : m ∈ findOverlappingModel pats h) :
    m.1 ≤ m.2.1 ∧ m.2.1 ≤ h.length ∧ m.2.2 < pats.length := by
  simp only [findOverlappingModel, List.mem_flatten, List.mem_map,
    List.mem_range] at hm
  rcases hm with ⟨l, ⟨pos, hpos, rfl⟩, hml⟩
  rcases List.mem_map.mp hml with ⟨id, hid, rfl⟩
  rcases mem_outputsOf hid with ⟨hlt, _⟩
  refine ⟨?_, ?_, ?_⟩ <;> simp only [] <;> omega

theorem mem_findOverlappingNoSuffixModel {pats : List (List Char)}
    {h : List Char} {m : Nat × Nat × Nat}
    (hm : m ∈ findOverlappingNoSuffixModel pats h) :
    m.1 ≤ m.2.1 ∧ m.2.1 ≤ h.length ∧ m.2.2 < pats.length := by
  simp only [findOverlappingNoSuffixModel, List.mem_filterMap,
    List.mem_range] at hm
  rcases hm with ⟨pos, hpos, hsome⟩
  rcases Option.map_eq_some'.mp hsome with ⟨id, hid, rfl⟩
  rcases findPatIdx_some hid with ⟨hlt, _⟩
  refine ⟨?_, ?_, ?_⟩ <;> simp only [] <;> omega

/-! ### Facts about the position-translation map -/

theorem fillPosMap_length : ∀ (cs : List Char) (i j : Nat) (m : List Nat)
    (lic : Nat), (fillPosMap cs i j m lic).1.length = m.length
  | [], _, _, _, _ => rfl
  | c :: cs, i, j, m, lic => by
    rw [fillPosMap, fillPosMap_length cs]
    exact List.length_set ..

theorem fillPosMap_get_lt : ∀ (cs : List Char) (i j : Nat) (m : List Nat)
    (lic q : Nat), q < j → (fillPosMap cs i j m lic).1.get? q = m.get? q
  | [], _, _, _, _, _, _ => rfl
  | c :: cs, i, j, m, lic, q, hq => by
    rw [fillPosMap, fillPosMap_get_lt cs _ _ _ _ _
      (Nat.lt_of_lt_of_le hq (Nat.le_add_right _ _))]
    exact List.get?_set_ne _ _ (by omega)

theorem fillPosMap_get_char : ∀ (cs : List Char) (k i j : Nat) (m : List Nat)
    (lic : Nat), k < cs.length → j + byteOff cs k < m.length →
    (fillPosMap cs i j m lic).1.get? (j + byteOff cs k) = some (i + k)
  | [], k, _, _, _, _, hk, _ => by simp at hk
  | c :: cs, 0, i, j, m, lic, _, hm => by
    have hj : j + byteOff (c :: cs) 0 = j := by simp [byteOff, utf8Len]
    rw [hj] at hm ⊢
    rw [fillPosMap, fillPosMap_get_lt cs _ _ _ _ _
      (Nat.lt_add_of_pos_right (Char.utf8Size_pos c))]
    rw [List.get?_set_eq_of_lt _ hm]
    simp
  | c :: cs, k + 1, i, j, m, lic, hk, hm => by
    have hoff : j + byteOff (c :: cs) (k + 1) =
        (j + c.utf8Size) + byteOff cs k := by
      simp [byteOff, utf8Len]
      omega
    rw [hoff] at hm ⊢
    rw [fillPosMap]
    have := fillPosMap_get_char cs k (i + 1) (j + c.utf8Size) (m.set j i) i
      (by simpa using Nat.lt_of_succ_lt_succ (Nat.succ_lt_succ
        (Nat.lt_of_succ_lt_succ (Nat.succ_lt_succ (by simpa using hk)))))
      (by simpa [List.length_set] using hm)
    rw [this]
    congr 1
    omega

theorem fillPosMap_lic : ∀ (cs : List Char) (i j : Nat) (m : List Nat)
    (lic : Nat), (fillPosMap cs i j m lic).2 =
      if cs.length = 0 then lic else i + (cs.length - 1)
  | [], _, _, _, _ => rfl
  | c :: cs, i, j, m, lic => by
    rw [fillPosMap, fillPosMap_lic cs]
    rcases Nat.eq_zero_or_pos cs.length with h0 | h0
    · simp [h0]
    · rw [if_neg (by omega), if_neg (by simp)]
      simp only [List.length_cons]
      omega

theorem byteOff_lt : ∀ {h : List Char} {i : Nat}, i < h.length →
    byteOff h i < utf8Len h
  | [], i, hi => by simp at hi
  | c :: cs, 0, _ => by
    have := Char.utf8Size_pos c
    simp only [byteOff, List.take, utf8Len]
    omega
  | c :: cs, i + 1, hi => by
    simp only [byteOff, List.take, utf8Len] at byteOff_lt ⊢
    exact Nat.add_lt_add_left (byteOff_lt (by simpa using hi)) _

theorem byteOff_length (h : List Char) : byteOff h h.length = utf8Len h := by
  simp [byteOff]

theorem buildPosMap_char {h : List Char} {i : Nat} (hi : i < h.length) :
    (buildPosMap h).getD (byteOff h i) 0 = i := by
  have hlt : byteOff h i < utf8Len h := byteOff_lt hi
  have hfill : (fillPosMap h 0 0 (List.replicate (utf8Len h + 1) 0) 0).1.get?
      (byteOff h i) = some i := by
    have := fillPosMap_get_char h i 0 0 (List.replicate (utf8Len h + 1) 0) 0
      hi (by simpa using by omega)
    simpa using this
  rw [buildPosMap, List.getD_eq_get?, List.get?_set_ne _ _ (by omega), hfill]
  rfl

theorem buildPosMap_sentinel {h : List Char} (hne : h ≠ []) :
    (buildPosMap h).getD (utf8Len h) 0 = h.length := by
  have hlen : (fillPosMap h 0 0 (List.replicate (utf8Len h + 1) 0) 0).1.length
      = utf8Len h + 1 := by
    rw [fillPosMap_length]; simp
  rw [buildPosMap, List.getD_eq_get?,
    List.get?_set_eq_of_lt _ (by rw [hlen]; omega)]
  rw [fillPosMap_lic]
  have hpos : 0 < h.length := List.length_pos.mpr hne
  rw [if_neg (by omega)]
  simp only [Option.getD_some]
  omega

theorem buildPosMap_nil : buildPosMap ([] : List Char) = [1] := rfl

theorem posMap_roundtrip {h : List Char} (hne : h ≠ []) {x : Nat}
    (hx : x ≤ h.length) : (buildPosMap h).getD (byteOff h x) 0 = x := by
  rcases Nat.lt_or_ge x h.length with hlt | hge
  · exact buildPosMap_char hlt
  · have hx' : x = h.length := Nat.le_antisymm hx hge
    rw [hx', byteOff_length]
    exact buildPosMap_sentinel hne

theorem translate_valid {h : List Char} (hne : h ≠ [])
    {ms : List (Nat × Nat × Nat)}
    (hv : ∀ m ∈ ms, m.1 ≤ m.2.1 ∧ m.2.1 ≤ h.length) :
    translateMatches (buildPosMap h) (toByteMatches h ms) = ms := by
  rw [translateMatches, toByteMatches, List.map_map]
  have : ∀ m ∈ ms, ((fun m : Nat × Nat × Nat =>
      ((buildPosMap h).getD m.1 0, (buildPosMap h).getD m.2.1 0, m.2.2)) ∘
      (fun m : Nat × Nat × Nat => (byteOff h m.1, byteOff h m.2.1, m.2.2))) m
      = m := by
    intro m hm
    rcases hv m hm with ⟨h1, h2⟩
    obtain ⟨s, e, v⟩ := m
    simp only [Function.comp]
    rw [posMap_roundtrip hne (by simp only [] at h1 h2 ⊢; omega),
      posMap_roundtrip hne h2]
  rw [List.map_congr_left this]
  exact List.map_id' ms

/-! ### The binding-level operations return the engine-model matches -/

theorem findStdModel_nil (pats : List (List Char)) :
    findStdModel pats [] = [] := rfl

theorem findLeftmostModel_nil (pats : List (List Char)) (kind : MatchKind) :
    findLeftmostModel pats kind [] = [] := rfl

theorem findOverlappingModel_nil (pats : List (List Char)) :
    findOverlappingModel pats [] = [] := rfl

theorem findOverlappingNoSuffixModel_nil (pats : List (List Char)) :
    findOverlappingNoSuffixModel pats [] = [] := rfl

theorem find_standard_eq {a : Automaton} (hk : a.matchKind = .Standard)
    (h : List Char) : a.find h = findStdModel a.pats h := by
  rcases List.eq_nil_or_concat h with rfl | _
  · rw [Automaton.find, hk, findStdModel_nil]
    rfl
  · have hne : h ≠ [] := by rintro rfl; simp_all
    rw [Automaton.find, hk]
    exact translate_valid hne (fun m hm => by
      rcases stdScan_bounds h.length h 0 m hm with ⟨_, h2, h3, _⟩
      exact ⟨h2, by omega⟩)

theorem find_leftmost_eq {a : Automaton} (hk : a.matchKind ≠ .Standard)
    (h : List Char) :
    a.find h = findLeftmostModel a.pats a.matchKind h := by
  have heq : ∀ k, a.matchKind = k → k ≠ MatchKind.Standard →
      a.find h = translateMatches (buildPosMap h)
        (toByteMatches h (findLeftmostModel a.pats k h)) := by
    intro k hks hkne
    rw [Automaton.find, hks]
    cases k with
    | Standard => exact absurd rfl hkne
    | LeftmostLongest => rfl
    | LeftmostFirst => rfl
  rw [heq a.matchKind rfl hk]
  rcases List.eq_nil_or_concat h with rfl | _
  · rw [findLeftmostModel_nil]
    rfl
  · have hne : h ≠ [] := by rintro rfl; simp_all
    exact translate_valid hne (fun m hm => by
      rcases leftmostScan_bounds h.length h 0 m hm with ⟨_, h2, h3, _⟩
      exact ⟨h2, by omega⟩)

theorem find_overlapping_eq {a : Automaton} (hk : a.matchKind = .Standard)
    (h : List Char) :
    a.find_overlapping h = .ok (findOverlappingModel a.pats h) := by
  rw [Automaton.find_overlapping, if_neg (by simp [hk])]
  rcases List.eq_nil_or_concat h with rfl | _
  · rw [findOverlappingModel_nil]
    rfl
  · have hne : h ≠ [] := by rintro rfl; simp_all
    rw [translate_valid hne (fun m hm => by
      rcases mem_findOverlappingModel hm with ⟨h1, h2, _⟩
      exact ⟨h1, h2⟩)]

theorem find_overlapping_no_suffix_eq {a : Automaton}
    (hk : a.matchKind = .Standard) (h : List Char) :
    a.find_overlapping_no_suffix h =
      .ok (findOverlappingNoSuffixModel a.pats h) := by
  rw [Automaton.find_overlapping_no_suffix, if_neg (by simp [hk])]
  rcases List.eq_nil_or_concat h with rfl | _
  · rw [findOverlappingNoSuffixModel_nil]
    rfl
  · have hne : h ≠ [] := by rintro rfl; simp_all
    rw [translate_valid hne (fun m hm => by
      rcases mem_findOverlappingNoSuffixModel hm with ⟨h1, h2, _⟩
      exact ⟨h1, h2⟩)]

/-! ### Claims -/

/-- C1: for every automaton built with a match_kind other than STANDARD and
every haystack, each overlapping-family operation fails with the
InvalidConfiguration error message "match_kind must be STANDARD" and returns
no match data. -/
theorem c1_nonstandard_overlapping_errors (a : Automaton) (h : List Char)
    (hk : a.matchKind ≠ .Standard) :
    a.find_overlapping h = .error "match_kind must be STANDARD" ∧
    a.find_overlapping_as_strings h = .error "match_kind must be STANDARD" ∧
    a.find_overlapping_no_suffix h = .error "match_kind must be STANDARD" ∧
    a.find_overlapping_no_suffix_as_strings h =
      .error "match_kind must be STANDARD" := by
  refine ⟨?_, ?_, ?_, ?_⟩
  · rw [Automaton.find_overlapping, if_pos (by simpa using hk)]
  · rw [Automaton.find_overlapping_as_strings, if_pos (by simpa using hk)]
  · rw [Automaton.find_overlapping_no_suffix, if_pos (by simpa using hk)]
  · rw [Automaton.find_overlapping_no_suffix_as_strings,
      if_pos (by simpa using hk)]

/-- Witness for C1 at a concrete LEFTMOST_LONGEST automaton and haystack. -/
theorem c1_witness :
    (⟨[['a']], .LeftmostLongest⟩ : Automaton).matchKind ≠ .Standard ∧
    ((⟨[['a']], .LeftmostLongest⟩ : Automaton).find_overlapping ['a'] =
        .error "match_kind must be STANDARD" ∧
      (⟨[['a']], .LeftmostLongest⟩ : Automaton).find_overlapping_as_strings
          ['a'] = .error "match_kind must be STANDARD" ∧
      (⟨[['a']], .LeftmostLongest⟩ : Automaton).find_overlapping_no_suffix
          ['a'] = .error "match_kind must be STANDARD" ∧
      (⟨[['a']],
          .LeftmostLongest⟩ : Automaton).find_overlapping_no_suffix_as_strings
          ['a'] = .error "match_kind must be STANDARD") :=
  ⟨by decide,
    c1_nonstandard_overlapping_errors ⟨[['a']], .LeftmostLongest⟩ ['a']
      (by decide)⟩

/-- C2 counterexample: on patterns ["bcd","ab","a"] (STANDARD) and haystack
"abcd", find_overlapping does not return [(0,2,1),(0,1,2),(1,4,0)], the order
asserted by the claim. -/
theorem c2_counterexample :
    (⟨[['b','c','d'], ['a','b'], ['a']],
        .Standard⟩ : Automaton).find_overlapping ['a','b','c','d'] ≠
      Except.ok [(0,2,1), (0,1,2), (1,4,0)] := by
  have hv : (⟨[['b','c','d'], ['a','b'], ['a']],
      .Standard⟩ : Automaton).find_overlapping ['a','b','c','d'] =
      Except.ok [(0,1,2), (0,2,1), (1,4,0)] := rfl
  rw [hv]
  intro heq
  exact absurd (Except.ok.inj heq) (by decide)

/-- C2 (amended): on patterns ["bcd","ab","a"] (STANDARD) and haystack "abcd",
find returns exactly [(0,1,2),(1,4,0)] and find_overlapping returns exactly
[(0,1,2),(0,2,1),(1,4,0)], the order the spec gives. -/
theorem c2_scenarios :
    (⟨[['b','c','d'], ['a','b'], ['a']], .Standard⟩ : Automaton).find
        ['a','b','c','d'] = [(0,1,2), (1,4,0)] ∧
    (⟨[['b','c','d'], ['a','b'], ['a']],
        .Standard⟩ : Automaton).find_overlapping ['a','b','c','d'] =
      .ok [(0,1,2), (0,2,1), (1,4,0)] :=
  ⟨by decide, rfl⟩

/-- C3: on patterns ["ab","a","abcd"] and haystack "abcd", find returns
[(0,4,2)] under LEFTMOST_LONGEST and [(0,2,0)] under LEFTMOST_FIRST. -/
theorem c3_leftmost_scenarios :
    (⟨[['a','b'], ['a'], ['a','b','c','d']],
        .LeftmostLongest⟩ : Automaton).find ['a','b','c','d'] = [(0,4,2)] ∧
    (⟨[['a','b'], ['a'], ['a','b','c','d']],
        .LeftmostFirst⟩ : Automaton).find ['a','b','c','d'] = [(0,2,0)] :=
  ⟨by decide, by decide⟩

/-- C4: on patterns ["bcd","cd","abc"] (STANDARD) and haystack "abcd",
find_overlapping_no_suffix returns exactly [(0,3,2),(1,4,0)]; the suffix match
(2,4,1) that the overlapping search reports is suppressed. -/
theorem c4_no_suffix_scenario :
    (⟨[['b','c','d'], ['c','d'], ['a','b','c']],
        .Standard⟩ : Automaton).find_overlapping_no_suffix ['a','b','c','d'] =
      .ok [(0,3,2), (1,4,0)] ∧
    (⟨[['b','c','d'], ['c','d'], ['a','b','c']],
        .Standard⟩ : Automaton).find_overlapping ['a','b','c','d'] =
      .ok [(0,3,2), (1,4,0), (2,4,1)] :=
  ⟨rfl, rfl⟩

/-- C5: every match (start, end, value) returned by a tuple-returning query of
a successfully built automaton satisfies start ≤ end ≤ codepoint length of the
haystack and value < pattern count (the lower bounds are automatic in ℕ). -/
theorem c5_match_bounds (pats : List (List Char)) (mk : MatchKind)
    (a : Automaton) (hb : Automaton.new pats mk = .ok a) (h : List Char) :
    (∀ m ∈ a.find h,
      m.1 ≤ m.2.1 ∧ m.2.1 ≤ h.length ∧ m.2.2 < pats.length) ∧
    (∀ l, a.find_overlapping h = .ok l → ∀ m ∈ l,
      m.1 ≤ m.2.1 ∧ m.2.1 ≤ h.length ∧ m.2.2 < pats.length) ∧
    (∀ l, a.find_overlapping_no_suffix h = .ok l → ∀ m ∈ l,
      m.1 ≤ m.2.1 ∧ m.2.1 ≤ h.length ∧ m.2.2 < pats.length) := by
  rw [Automaton.new] at hb
  by_cases h1 : pats = []
  · rw [if_pos h1] at hb
    exact absurd hb (by simp)
  rw [if_neg h1] at hb
  by_cases h2 : pats.any (fun p => p.isEmpty) = true
  · rw [if_pos h2] at hb
    exact absurd hb (by simp)
  rw [if_neg h2] at hb
  have ha : a = ⟨pats, mk⟩ := (Except.ok.inj hb).symm
  subst ha
  refine ⟨?_, ?_, ?_⟩
  · intro m hm
    by_cases hk : (⟨pats, mk⟩ : Automaton).matchKind = .Standard
    · rw [find_standard_eq hk] at hm
      rcases stdScan_bounds h.length h 0 m hm with ⟨_, h2, h3, h4⟩
      exact ⟨h2, by omega, h4⟩
    · rw [find_leftmost_eq hk] at hm
      rcases leftmostScan_bounds h.length h 0 m hm with ⟨_, h2, h3, h4⟩
      exact ⟨h2, by omega, h4⟩
  · intro l hl m hm
    by_cases hk : (⟨pats, mk⟩ : Automaton).matchKind = .Standard
    · rw [find_overlapping_eq hk] at hl
      rcases Except.ok.inj hl with rfl
      exact mem_findOverlappingModel hm
    · rw [Automaton.find_overlapping, if_pos (by simpa using hk)] at hl
      exact absurd hl (by simp)
  · intro l hl m hm
    by_cases hk : (⟨pats, mk⟩ : Automaton).matchKind = .Standard
    · rw [find_overlapping_no_suffix_eq hk] at hl
      rcases Except.ok.inj hl with rfl
      exact mem_findOverlappingNoSuffixModel hm
    · rw [Automaton.find_overlapping_no_suffix,
        if_pos (by simpa using hk)] at hl
      exact absurd hl (by simp)

/-- Witness for C5 at a concrete automaton and haystack. -/
theorem c5_witness :
    Automaton.new [['a','b'], ['a']] .Standard =
      .ok ⟨[['a','b'], ['a']], .Standard⟩ ∧
    ((∀ m ∈ (⟨[['a','b'], ['a']], .Standard⟩ : Automaton).find ['a','b'],
        m.1 ≤ m.2.1 ∧ m.2.1 ≤ (['a','b'] : List Char).length ∧
          m.2.2 < ([['a','b'], ['a']] : List (List Char)).length) ∧
      (∀ l, (⟨[['a','b'], ['a']], .Standard⟩ : Automaton).find_overlapping
          ['a','b'] = .ok l → ∀ m ∈ l,
        m.1 ≤ m.2.1 ∧ m.2.1 ≤ (['a','b'] : List Char).length ∧
          m.2.2 < ([['a','b'], ['a']] : List (List Char)).length) ∧
      (∀ l, (⟨[['a','b'], ['a']],
            .Standard⟩ : Automaton).find_overlapping_no_suffix
          ['a','b'] = .ok l → ∀ m ∈ l,
        m.1 ≤ m.2.1 ∧ m.2.1 ≤ (['a','b'] : List Char).length ∧
          m.2.2 < ([['a','b'], ['a']] : List (List Char)).length)) :=
  ⟨rfl,
    c5_match_bounds [['a','b'], ['a']] .Standard
      ⟨[['a','b'], ['a']], .Standard⟩ rfl ['a','b']⟩

/-- C6: under STANDARD match_kind the list returned by find has pairwise
non-overlapping ranges: each match's end is at most the next match's start,
ends are non-decreasing, and each match satisfies start ≤ end. -/
theorem c6_standard_nonoverlapping (a : Automaton) (h : List Char)
    (hk : a.matchKind = .Standard) :
    List.Chain' (fun m1 m2 : Nat × Nat × Nat => m1.2.1 ≤ m2.1) (a.find h) ∧
    List.Chain' (fun m1 m2 : Nat × Nat × Nat => m1.2.1 ≤ m2.2.1) (a.find h) ∧
    ∀ m ∈ a.find h, m.1 ≤ m.2.1 := by
  rw [find_standard_eq hk]
  have hch := @stdScan_chain a.pats h.length h 0
  exact ⟨hch.imp (fun x y hxy => hxy.1), hch.imp (fun x y hxy => hxy.2),
    fun m hm => (stdScan_bounds h.length h 0 m hm).2.1⟩

/-- Witness for C6 at a concrete STANDARD automaton and haystack. -/
theorem c6_witness :
    (⟨[['b','c','d'], ['a','b'], ['a']], .Standard⟩ : Automaton).matchKind =
      .Standard ∧
    (List.Chain' (fun m1 m2 : Nat × Nat × Nat => m1.2.1 ≤ m2.1)
        ((⟨[['b','c','d'], ['a','b'], ['a']], .Standard⟩ : Automaton).find
          ['a','b','c','d']) ∧
      List.Chain' (fun m1 m2 : Nat × Nat × Nat => m1.2.1 ≤ m2.2.1)
        ((⟨[['b','c','d'], ['a','b'], ['a']], .Standard⟩ : Automaton).find
          ['a','b','c','d']) ∧
      ∀ m ∈ (⟨[['b','c','d'], ['a','b'], ['a']], .Standard⟩ : Automaton).find
          ['a','b','c','d'], m.1 ≤ m.2.1) :=
  ⟨rfl, c6_standard_nonoverlapping ⟨[['b','c','d'], ['a','b'], ['a']],
    .Standard⟩ ['a','b','c','d'] rfl⟩

/-- C7: each string-returning operation returns exactly the original pattern
texts looked up at the values of the corresponding tuple-returning operation,
in the same order (hence of the same length); on a failing tuple operation the
string operation fails identically. -/
theorem c7_strings_refinement (a : Automaton) (h : List Char) :
    a.find_as_strings h =
      (a.find h).map (fun m => a.pats.getD m.2.2 []) ∧
    a.find_overlapping_as_strings h =
      (a.find_overlapping h).map
        (fun l => l.map (fun m => a.pats.getD m.2.2 [])) ∧
    a.find_overlapping_no_suffix_as_strings h =
      (a.find_overlapping_no_suffix h).map
        (fun l => l.map (fun m => a.pats.getD m.2.2 [])) := by
  refine ⟨?_, ?_, ?_⟩
  · by_cases hk : a.matchKind = .Standard
    · rw [find_standard_eq hk, Automaton.find_as_strings, hk]
      simp [List.map_map]
    · rw [find_leftmost_eq hk, Automaton.find_as_strings]
      cases hkk : a.matchKind with
      | Standard => exact absurd hkk hk
      | LeftmostLongest => simp [List.map_map]
      | LeftmostFirst => simp [List.map_map]
  · by_cases hk : a.matchKind = .Standard
    · rw [find_overlapping_eq hk, Automaton.find_overlapping_as_strings,
        if_neg (by simp [hk])]
      simp [Except.map, List.map_map]
    · rw [Automaton.find_overlapping_as_strings, if_pos (by simpa using hk),
        Automaton.find_overlapping, if_pos (by simpa using hk)]
      rfl
  · by_cases hk : a.matchKind = .Standard
    · rw [find_overlapping_no_suffix_eq hk,
        Automaton.find_overlapping_no_suffix_as_strings,
        if_neg (by simp [hk])]
      simp [Except.map, List.map_map]
    · rw [Automaton.find_overlapping_no_suffix_as_strings,
        if_pos (by simpa using hk),
        Automaton.find_overlapping_no_suffix, if_pos (by simpa using hk)]
      rfl

/-- C8: construction fails with a ConstructionError, and no automaton is
created, whenever the pattern set is empty or contains the empty string. -/
theorem c8_construction_errors (pats : List (List Char)) (mk : MatchKind)
    (hbad : pats = [] ∨ [] ∈ pats) :
    ∃ e, Automaton.new pats mk = .error e := by
  rw [Automaton.new]
  rcases hbad with rfl | hmem
  · exact ⟨.emptyPatternSet, by rw [if_pos rfl]⟩
  · by_cases hnil : pats = []
    · exact ⟨.emptyPatternSet, by rw [if_pos hnil]⟩
    · refine ⟨.emptyPattern, ?_⟩
      rw [if_neg hnil, if_pos ?_]
      exact List.any_eq_true.mpr ⟨[], hmem, rfl⟩

/-- Witness for C8 at a concrete pattern set containing the empty string. -/
theorem c8_witness :
    (([['a'], []] : List (List Char)) = [] ∨ [] ∈ [['a'], []]) ∧
    ∃ e, Automaton.new [['a'], []] .Standard = .error e :=
  ⟨by decide, c8_construction_errors [['a'], []] .Standard (by decide)⟩

/-- C9 counterexample: for the empty haystack the code sets the sentinel
entry of the position map to 1, not to the total codepoint count 0 that the
claim asserts. -/
theorem c9_counterexample :
    ¬ ((buildPosMap ([] : List Char)).getD 0 0 = 0) := by decide

/-- C9 (amended): the position map sends each byte offset at which a
codepoint begins to that codepoint's zero-based index, and for a non-empty
haystack sends the one-past-the-end byte offset to the total codepoint count;
for the empty haystack the sentinel entry is 1 instead of 0. -/
theorem c9_pos_map (h : List Char) :
    (∀ i, i < h.length → (buildPosMap h).getD (byteOff h i) 0 = i) ∧
    (h ≠ [] → (buildPosMap h).getD (utf8Len h) 0 = h.length) ∧
    buildPosMap ([] : List Char) = [1] :=
  ⟨fun _ hi => buildPosMap_char hi, fun hne => buildPosMap_sentinel hne, rfl⟩

/-- Witness for C9 at a concrete two-character haystack. -/
theorem c9_witness :
    (buildPosMap ['a','b']).getD (byteOff ['a','b'] 1) 0 = 1 ∧
    (buildPosMap ['a','b']).getD (utf8Len ['a','b']) 0 = 2 :=
  ⟨(c9_pos_map ['a','b']).1 1 (by decide),
    (c9_pos_map ['a','b']).2.1 (by decide)⟩

end Daachorse
